import Mathlib

/-!
Verification of the persistence module `storage.js` (DayStore) of the
My-Personal-Schedule repository.

Modeling notes.

* `localStorage` is modeled as a list of key/value entries in enumeration
  order (`Store`).  Real web storage keeps keys unique; theorems that need
  this well-formedness carry a `Nodup` hypothesis on the key list.
* Stored text is represented by its `JSON.parse` result: `Stored.json v`
  stands for any text that parses to the JSON value `v` (and
  `JSON.stringify`/`JSON.parse` round-trip on such text is the identity in
  this representation), while `Stored.junk t` stands for text `t` — possibly
  the empty string — that `JSON.parse` rejects.  The one string the module
  treats specially, the empty string (falsy in `if (data)` checks), does not
  parse as JSON, so it always falls in the `junk` case, which the read paths
  treat exactly like a parse failure.
* JS numbers inside JSON values are modeled as integers; no claim depends on
  non-integral numerics.
* `JSON.parse` of the input text handed to `importStateFromJSON` is modeled
  by an `Option Json` argument (`none` = the parse throws).
* Exceptions are modeled with `Except`: `importStateFromJSON` returns the
  outcome (`Except.ok true` on the success path, `Except.error msg` for a
  re-thrown exception) together with the resulting store contents.
-/

namespace Storage

/-- JSON values, as produced by `JSON.parse`. -/
inductive Json where
  | null
  | bool (b : Bool)
  | num (n : Int)
  | str (s : String)
  | arr (elems : List Json)
  | obj (fields : List (String × Json))

/-- One persisted `localStorage` value: the stored text, represented by its
parse (see the modeling notes). -/
inductive Stored where
  | json (v : Json)
  | junk (text : String)

/-- The `localStorage` contents: entries in enumeration order. -/
abbrev Store := List (String × Stored)

/-- Model of `localStorage.getItem(k)` (`none` = the JS `null`). -/
def getItem (store : Store) (k : String) : Option Stored :=
  (store.find? (fun kv => kv.1 == k)).map (fun kv => kv.2)

/-- Model of `localStorage.setItem(k, v)`: an existing key keeps its
enumeration slot and gets the new value; a fresh key is appended. -/
def setItem (store : Store) (k : String) (v : Stored) : Store :=
  if store.any (fun kv => kv.1 == k) then
    store.map (fun kv => if kv.1 == k then (k, v) else kv)
  else
    store ++ [(k, v)]

/-- Model of JS `s.startsWith(p)`, on the character lists. -/
def strStartsWith (s p : String) : Bool :=
  p.data.isPrefixOf s.data

/-- A JS `Date`, restricted to the local calendar fields the module reads
(`getFullYear()`, `getMonth() + 1`, `getDate()`). -/
structure Date where
  year : Nat
  month : Nat
  day : Nat
deriving DecidableEq

/-- `getStorageKey(date)`: the template literal
`study_data_${date.getFullYear()}_${date.getMonth() + 1}_${date.getDate()}`,
with `Nat.repr` playing the role of JS decimal number-to-string conversion. -/
def getStorageKey (date : Date) : String :=
  "study_data_" ++ Nat.repr date.year ++ "_" ++ Nat.repr date.month
    ++ "_" ++ Nat.repr date.day

/-- The `defaultData` record of `getDayData`. -/
def defaultData : Json :=
  Json.obj [("tasks", Json.arr []), ("note", Json.str ""),
    ("status", Json.str "planned"), ("mood", Json.str "")]

/-- `getDayData(date)`: return the parsed stored value when present and
parseable; on a missing key, empty text, or a parse failure (caught and
logged) return `defaultData`. -/
def getDayData (store : Store) (date : Date) : Json :=
  match getItem store (getStorageKey date) with
  | some (Stored.json v) => v
  | some (Stored.junk _) => defaultData
  | none => defaultData

/-- `saveDayData(date, dayData)`: `localStorage.setItem(key, JSON.stringify(dayData))`. -/
def saveDayData (store : Store) (date : Date) (dayData : Json) : Store :=
  setItem store (getStorageKey date) (Stored.json dayData)

/-- `hasDayData(date)`: `localStorage.getItem(key) !== null`. -/
def hasDayData (store : Store) (date : Date) : Bool :=
  (getItem store (getStorageKey date)).isSome

/-- Gregorian leap-year rule, as implemented by the JS `Date` rollover. -/
def isLeapYear (year : Nat) : Bool :=
  (year % 4 == 0 && year % 100 != 0) || year % 400 == 0

/-- Model of `new Date(year, month, 0).getDate()` — the day count of
`month`/`year` — for month arguments in the documented range 1..12. -/
def daysInMonth (year month : Nat) : Nat :=
  match month with
  | 1 => 31
  | 2 => if isLeapYear year then 29 else 28
  | 3 => 31
  | 4 => 30
  | 5 => 31
  | 6 => 30
  | 7 => 31
  | 8 => 31
  | 9 => 30
  | 10 => 31
  | 11 => 30
  | 12 => 31
  | _ => 0

/-- `loadMonthData(year, month)`: for each day `1..daysInMonth`, include the
entry when the stored text exists, is non-empty and parses; skip it (logged)
otherwise. -/
def loadMonthData (store : Store) (year month : Nat) : List (Nat × Json) :=
  (List.range' 1 (daysInMonth year month)).filterMap (fun day =>
    match getItem store (getStorageKey ⟨year, month, day⟩) with
    | some (Stored.json v) => some (day, v)
    | _ => none)

/-- `loadState()`: every key carrying the `study_data_` marker whose text is
non-empty and parses; parse failures are logged and skipped. -/
def loadState (store : Store) : List (String × Json) :=
  store.filterMap (fun kv =>
    if strStartsWith kv.1 "study_data_" then
      match kv.2 with
      | Stored.json v => some (kv.1, v)
      | Stored.junk _ => none
    else none)

/-- `saveState(state)`: first remove every key carrying the `study_data_`
marker, then write each entry of `state` whose key carries it
(`JSON.stringify` of the value; per-key failures are caught and logged). -/
def saveState (state : List (String × Json)) (store : Store) : Store :=
  let cleared := store.filter (fun kv => !(strStartsWith kv.1 "study_data_"))
  state.foldl (fun st kv =>
    if strStartsWith kv.1 "study_data_" then setItem st kv.1 (Stored.json kv.2)
    else st) cleared

/-- `exportStateToJSON()`: `JSON.stringify(loadState(), null, 2)`; in the
text-up-to-parse representation, the JSON value the exported text denotes. -/
def exportStateToJSON (store : Store) : Json :=
  Json.obj (loadState store)

/-- `Object.keys`-style own-property enumeration of a parsed JSON value, with
each key paired with its value; `none` models the `TypeError` that
`Object.keys(null)` raises. -/
def objectEntries : Json → Option (List (String × Json))
  | Json.null => none
  | Json.bool _ => some []
  | Json.num _ => some []
  | Json.str s => some (s.data.enum.map (fun p => (Nat.repr p.1, Json.str (String.mk [p.2]))))
  | Json.arr elems => some (elems.enum.map (fun p => (Nat.repr p.1, p.2)))
  | Json.obj fields => some fields

/-- The entries contributed by an object-literal spread `{...v}`: like
`objectEntries`, except that spreading `null` contributes nothing. -/
def spreadEntries (v : Json) : List (String × Json) :=
  (objectEntries v).getD []

/-- `{...current, ...incoming}`: keys of `current` keep their position, with
the value overridden by `incoming` on a collision; keys unique to `incoming`
follow in `incoming` order. -/
def mergeEntries (current incoming : List (String × Json)) : List (String × Json) :=
  current.map (fun kv =>
    match incoming.find? (fun kv2 => kv2.1 == kv.1) with
    | some kv2 => (kv.1, kv2.2)
    | none => kv)
  ++ incoming.filter (fun kv2 => !(current.any (fun kv => kv.1 == kv2.1)))

/-- Result of `importStateFromJSON`: the returned/thrown outcome and the
store contents after the call. -/
structure ImportOutcome where
  result : Except String Bool
  store : Store

/-- `importStateFromJSON(jsonString, mode)` with `parsed` the result of
`JSON.parse(jsonString)` (`none` = the parse throws, which is caught, logged
and re-thrown).  `"replace"` hands the parsed value to `saveState`;
`"merge"` overlays it on `loadState()` and saves the result; any other mode
throws.  The success paths return `true`.  In the `"replace"` corner where
the parsed value is `null`, `saveState` raises its `TypeError` only after
its clearing phase, so the error outcome carries the cleared store. -/
def importStateFromJSON (parsed : Option Json) (mode : String) (store : Store) :
    ImportOutcome :=
  match parsed with
  | none => ⟨Except.error "SyntaxError: invalid JSON", store⟩
  | some importedState =>
    if mode == "replace" then
      match objectEntries importedState with
      | some entries => ⟨Except.ok true, saveState entries store⟩
      | none => ⟨Except.error "TypeError: imported state is null",
          store.filter (fun kv => !(strStartsWith kv.1 "study_data_"))⟩
    else if mode == "merge" then
      ⟨Except.ok true,
        saveState (mergeEntries (loadState store) (spreadEntries importedState)) store⟩
    else
      ⟨Except.error ("unsupported import mode: " ++ mode), store⟩

/-! Basic lemmas about the store primitives. -/

/-- Lookup on a cons cell. -/
theorem getItem_cons (kv : String × Stored) (rest : Store) (k : String) :
    getItem (kv :: rest) k =
      if (kv.1 == k) = true then some kv.2 else getItem rest k := by
  unfold getItem
  by_cases h : (kv.1 == k) = true
  · rw [List.find?_cons_of_pos (p := fun kv : String × Stored => kv.1 == k) _ h, if_pos h]
    rfl
  · rw [List.find?_cons_of_neg (p := fun kv : String × Stored => kv.1 == k) _ (by simpa using h), if_neg h]

theorem getItem_setItem_self (store : Store) (k : String) (v : Stored) :
    getItem (setItem store k v) k = some v := by
  unfold setItem
  by_cases h : store.any (fun kv => kv.1 == k) = true
  · rw [if_pos h]
    induction store with
    | nil => simp at h
    | cons kv rest ih =>
      simp only [List.any_cons, Bool.or_eq_true] at h
      rw [List.map_cons]
      by_cases hk : (kv.1 == k) = true
      · rw [if_pos hk, getItem_cons, if_pos (by simp)]
      · rw [if_neg hk, getItem_cons, if_neg (by simpa using hk)]
        rcases h with h | h
        · exact absurd h hk
        · exact ih h
  · rw [if_neg h]
    have hnone : store.find? (fun kv => kv.1 == k) = none := by
      rw [List.find?_eq_none]
      intro x hx hbeq
      exact h (List.any_eq_true.mpr ⟨x, hx, hbeq⟩)
    unfold getItem
    rw [List.find?_append, hnone, Option.none_or,
      List.find?_cons_of_pos (p := fun kv : String × Stored => kv.1 == k) _ (by simp)]
    rfl

/-- An entry whose key does not carry the `study_data_` marker is looked up
identically in the store and in its non-marker restriction. -/
theorem getItem_filter_nonmarker (store : Store) (k : String)
    (hk : strStartsWith k "study_data_" = false) :
    getItem (store.filter (fun kv => !(strStartsWith kv.1 "study_data_"))) k =
      getItem store k := by
  induction store with
  | nil => rfl
  | cons kv rest ih =>
    by_cases hm : strStartsWith kv.1 "study_data_" = true
    · have hne : ¬((kv.1 == k) = true) := by
        intro hbeq
        rw [eq_of_beq hbeq, hk] at hm
        cases hm
      rw [List.filter_cons_of_neg (by simp [hm]), getItem_cons, if_neg hne, ih]
    · rw [Bool.not_eq_true] at hm
      rw [List.filter_cons_of_pos (by simp [hm]), getItem_cons, getItem_cons, ih]

/-- `setItem` with a marker-carrying key leaves the non-marker restriction of
the store untouched. -/
theorem filter_setItem_marker (store : Store) (k : String) (v : Stored)
    (hk : strStartsWith k "study_data_" = true) :
    (setItem store k v).filter (fun kv => !(strStartsWith kv.1 "study_data_")) =
      store.filter (fun kv => !(strStartsWith kv.1 "study_data_")) := by
  unfold setItem
  by_cases h : store.any (fun kv => kv.1 == k) = true
  · rw [if_pos h]
    clear h
    induction store with
    | nil => rfl
    | cons kv0 rest ih =>
      rw [List.map_cons]
      by_cases hbeq : (kv0.1 == k) = true
      · have hm0 : strStartsWith kv0.1 "study_data_" = true := by
          rw [eq_of_beq hbeq]; exact hk
        rw [if_pos hbeq, List.filter_cons_of_neg (by simp [hk]),
          List.filter_cons_of_neg (by simp [hm0])]
        exact ih
      · rw [if_neg hbeq]
        by_cases hm0 : strStartsWith kv0.1 "study_data_" = true
        · rw [List.filter_cons_of_neg (by simp [hm0]),
            List.filter_cons_of_neg (by simp [hm0])]
          exact ih
        · rw [Bool.not_eq_true] at hm0
          rw [List.filter_cons_of_pos (by simp [hm0]),
            List.filter_cons_of_pos (by simp [hm0]), ih]
  · rw [if_neg h, List.filter_append, List.filter_cons_of_neg (by simp [hk])]
    simp

/-- The write phase of `saveState` (a fold of marker-guarded `setItem`s)
preserves the non-marker restriction of the store. -/
theorem foldl_write_filter_nonmarker (state : List (String × Json)) :
    ∀ st : Store,
      ((state.foldl (fun st kv =>
          if strStartsWith kv.1 "study_data_" then setItem st kv.1 (Stored.json kv.2)
          else st) st).filter (fun kv => !(strStartsWith kv.1 "study_data_"))) =
        st.filter (fun kv => !(strStartsWith kv.1 "study_data_")) := by
  induction state with
  | nil => intro st; rfl
  | cons e rest ih =>
    intro st
    simp only [List.foldl_cons]
    by_cases hm : strStartsWith e.1 "study_data_" = true
    · rw [if_pos hm, ih, filter_setItem_marker _ _ _ hm]
    · rw [if_neg hm, ih]

theorem filter_nonmarker_idem (store : Store) :
    (store.filter (fun kv => !(strStartsWith kv.1 "study_data_"))).filter
        (fun kv => !(strStartsWith kv.1 "study_data_")) =
      store.filter (fun kv => !(strStartsWith kv.1 "study_data_")) := by
  rw [List.filter_eq_self]
  intro kv hkv
  exact (List.mem_filter.mp hkv).2

/-- C2: `saveState` never removes and never writes any storage key lacking the
`study_data_` marker: the non-marker part of the store is unchanged (entry for
entry, in order), and any lookup of a non-marker key is unaffected; entries of
the input without the marker are silently dropped. -/
theorem saveState_frame (state : List (String × Json)) (store : Store) :
    (saveState state store).filter (fun kv => !(strStartsWith kv.1 "study_data_")) =
      store.filter (fun kv => !(strStartsWith kv.1 "study_data_")) ∧
    ∀ k : String, strStartsWith k "study_data_" = false →
      getItem (saveState state store) k = getItem store k := by
  have hfilter : (saveState state store).filter
      (fun kv => !(strStartsWith kv.1 "study_data_")) =
      store.filter (fun kv => !(strStartsWith kv.1 "study_data_")) := by
    unfold saveState
    rw [foldl_write_filter_nonmarker, filter_nonmarker_idem]
  refine ⟨hfilter, fun k hk => ?_⟩
  rw [← getItem_filter_nonmarker (saveState state store) k hk, hfilter,
    getItem_filter_nonmarker store k hk]

theorem saveState_frame_witness :
    strStartsWith "unrelated_key" "study_data_" = false ∧
    getItem (saveState [("study_data_2024_1_1", Json.null), ("unrelated_key", Json.bool true)]
        [("unrelated_key", Stored.junk "raw")]) "unrelated_key" =
      getItem [("unrelated_key", Stored.junk "raw")] "unrelated_key" :=
  ⟨by decide,
    (saveState_frame [("study_data_2024_1_1", Json.null), ("unrelated_key", Json.bool true)]
      [("unrelated_key", Stored.junk "raw")]).2 "unrelated_key" (by decide)⟩

/-- C3: saving a record for a date and reading that date back returns the very
same record (`JSON.parse ∘ JSON.stringify` round-trip on JSON values). -/
theorem getDayData_saveDayData_roundtrip (store : Store) (d : Date) (r : Json) :
    getDayData (saveDayData store d r) d = r := by
  unfold getDayData saveDayData
  rw [getItem_setItem_self]

/-- C5: on a date with no stored value, or one whose stored text does not
parse as JSON, `getDayData` returns the default record and raises no error
(totality of the Lean function). -/
theorem getDayData_default_on_missing_or_unparseable (store : Store) (d : Date)
    (h : getItem store (getStorageKey d) = none ∨
      ∃ t, getItem store (getStorageKey d) = some (Stored.junk t)) :
    getDayData store d = defaultData := by
  unfold getDayData
  rcases h with h | ⟨t, h⟩ <;> rw [h]

theorem getDayData_default_witness :
    getDayData [] ⟨2024, 1, 1⟩ = defaultData :=
  getDayData_default_on_missing_or_unparseable [] ⟨2024, 1, 1⟩ (Or.inl rfl)

/-! Lemmas on `loadState` and `saveState`. -/

theorem loadState_append (a b : Store) :
    loadState (a ++ b) = loadState a ++ loadState b :=
  List.filterMap_append a b _

theorem loadState_nonmarker_nil (store : Store)
    (h : ∀ kv ∈ store, strStartsWith kv.1 "study_data_" = false) :
    loadState store = [] := by
  unfold loadState
  rw [List.filterMap_eq_nil_iff]
  intro kv hkv
  simp [h kv hkv]

theorem loadState_cleared_nil (store : Store) :
    loadState (store.filter (fun kv => !(strStartsWith kv.1 "study_data_"))) = [] :=
  loadState_nonmarker_nil _ (fun kv hkv => by
    have h := (List.mem_filter.mp hkv).2
    simpa using h)

theorem setItem_absent_append (st : Store) (k : String) (v : Stored)
    (h : st.any (fun kv => kv.1 == k) = false) :
    setItem st k v = st ++ [(k, v)] := by
  unfold setItem
  rw [if_neg (by simp [h])]

/-- The write phase of `saveState`, started on a store containing none of the
written keys, appends the writes in order. -/
theorem write_fold_append (E : List (String × Json)) :
    ∀ st : Store,
      (∀ kv ∈ E, strStartsWith kv.1 "study_data_" = true) →
      (∀ kv ∈ E, st.any (fun e => e.1 == kv.1) = false) →
      (E.map Prod.fst).Nodup →
      E.foldl (fun st kv =>
        if strStartsWith kv.1 "study_data_" then setItem st kv.1 (Stored.json kv.2)
        else st) st = st ++ E.map (fun kv => (kv.1, Stored.json kv.2)) := by
  induction E with
  | nil => intro st _ _ _; simp
  | cons e rest ih =>
    intro st hpre habs hnd
    simp only [List.foldl_cons]
    rw [if_pos (hpre e (List.mem_cons_self e rest)),
      setItem_absent_append st e.1 (Stored.json e.2) (habs e (List.mem_cons_self e rest))]
    have hnd' : ((e :: rest).map Prod.fst).Nodup := hnd
    rw [List.map_cons, List.nodup_cons] at hnd'
    rw [ih (st ++ [(e.1, Stored.json e.2)])
      (fun kv hkv => hpre kv (List.mem_cons_of_mem e hkv))
      (fun kv hkv => by
        rw [List.any_append, habs kv (List.mem_cons_of_mem e hkv)]
        have hb : (e.1 == kv.1) = false := by
          rcases hb : (e.1 == kv.1) with _ | _
          · rfl
          · exact absurd (eq_of_beq hb ▸ List.mem_map.mpr ⟨kv, hkv, rfl⟩) hnd'.1
        simp [hb]) hnd'.2]
    simp

/-- Every entry `loadState` returns carries the `study_data_` marker. -/
theorem loadState_keys_marker (store : Store) :
    ∀ kv ∈ loadState store, strStartsWith kv.1 "study_data_" = true := by
  intro kv hkv
  unfold loadState at hkv
  rcases List.mem_filterMap.mp hkv with ⟨⟨k0, v0⟩, _, hfa⟩
  by_cases hm : strStartsWith k0 "study_data_" = true
  · cases v0 with
    | json v =>
      simp only [if_pos hm] at hfa
      obtain ⟨h1, _⟩ := Prod.mk.injEq .. ▸ Option.some.inj hfa
      exact h1 ▸ hm
    | junk t => simp [hm] at hfa
  · simp [hm] at hfa

/-- Every entry `loadState` returns comes from a parseable stored entry. -/
theorem loadState_source (store : Store) (k : String) (v : Json)
    (h : (k, v) ∈ loadState store) : (k, Stored.json v) ∈ store := by
  unfold loadState at h
  rcases List.mem_filterMap.mp h with ⟨⟨k0, v0⟩, ha, hfa⟩
  by_cases hm : strStartsWith k0 "study_data_" = true
  · cases v0 with
    | json w =>
      simp only [if_pos hm, Option.some.injEq, Prod.mk.injEq] at hfa
      rw [← hfa.1, ← hfa.2]
      exact ha
    | junk t => simp [hm] at hfa
  · simp [hm] at hfa

/-- Reading back marker-keyed parseable writes returns them verbatim. -/
theorem loadState_writes (E : List (String × Json))
    (h : ∀ kv ∈ E, strStartsWith kv.1 "study_data_" = true) :
    loadState (E.map (fun kv => (kv.1, Stored.json kv.2))) = E := by
  induction E with
  | nil => rfl
  | cons e rest ih =>
    rw [List.map_cons]
    unfold loadState
    rw [List.filterMap_cons]
    have hm := h e (List.mem_cons_self e rest)
    simp only [if_pos hm]
    unfold loadState at ih
    rw [ih (fun kv hkv => h kv (List.mem_cons_of_mem e hkv))]

/-- `saveState` of marker-keyed, duplicate-free entries followed by
`loadState` returns exactly those entries. -/
theorem loadState_saveState (E : List (String × Json)) (store : Store)
    (hpre : ∀ kv ∈ E, strStartsWith kv.1 "study_data_" = true)
    (hnd : (E.map Prod.fst).Nodup) :
    loadState (saveState E store) = E := by
  unfold saveState
  rw [write_fold_append E _ hpre
    (fun kv hkv => by
      rcases hany : (store.filter (fun kv => !(strStartsWith kv.1 "study_data_"))).any
          (fun e => e.1 == kv.1) with _ | _
      · exact hany
      · exfalso
        rcases List.any_eq_true.mp hany with ⟨e, he, hbeq⟩
        have hnm := (List.mem_filter.mp he).2
        rw [eq_of_beq hbeq, hpre kv hkv] at hnm
        simp at hnm) hnd]
  rw [loadState_append, loadState_cleared_nil, List.nil_append, loadState_writes E hpre]

/-- The key list of `loadState` is a sublist of the store's key list. -/
theorem loadState_keys_sublist (store : Store) :
    ((loadState store).map Prod.fst).Sublist (store.map Prod.fst) := by
  induction store with
  | nil => exact List.Sublist.refl []
  | cons kv rest ih =>
    unfold loadState
    rw [List.filterMap_cons]
    by_cases hm : strStartsWith kv.1 "study_data_" = true
    · rcases kv with ⟨k0, v0⟩
      cases v0 with
      | json v =>
        simp only [if_pos hm]
        rw [List.map_cons, List.map_cons]
        exact List.Sublist.cons₂ k0 ih
      | junk t =>
        simp only [if_pos hm]
        rw [List.map_cons]
        exact List.Sublist.cons k0 ih
    · simp only [if_neg hm]
      rw [List.map_cons]
      exact List.Sublist.cons kv.1 ih

/-- In an association list with duplicate-free keys, a key determines its
value. -/
theorem nodup_keys_mem_unique {β : Type} {l : List (String × β)}
    (hnd : (l.map Prod.fst).Nodup) {k : String} {a b : β}
    (h1 : (k, a) ∈ l) (h2 : (k, b) ∈ l) : a = b := by
  induction l with
  | nil => cases h1
  | cons kv rest ih =>
    rw [List.map_cons, List.nodup_cons] at hnd
    rcases List.mem_cons.mp h1 with h1 | h1 <;> rcases List.mem_cons.mp h2 with h2 | h2
    · rw [← h1] at h2
      exact (Prod.mk.injEq .. ▸ h2).2.symm
    · exfalso
      apply hnd.1
      rw [← h1]
      exact List.mem_map.mpr ⟨(k, b), h2, rfl⟩
    · exfalso
      apply hnd.1
      rw [← h2]
      exact List.mem_map.mpr ⟨(k, a), h1, rfl⟩
    · exact ih hnd.2 h1 h2

/-- Any entry of a `saveState` result is either an untouched non-marker entry
of the original store or a freshly written parseable entry. -/
theorem mem_setItem (st : Store) (k : String) (v : Stored) (kv : String × Stored)
    (h : kv ∈ setItem st k v) : kv ∈ st ∨ kv = (k, v) := by
  unfold setItem at h
  by_cases hany : st.any (fun kv => kv.1 == k) = true
  · rw [if_pos hany] at h
    rcases List.mem_map.mp h with ⟨a, ha, heq⟩
    by_cases hb : (a.1 == k) = true
    · rw [if_pos hb] at heq
      exact Or.inr heq.symm
    · rw [if_neg hb] at heq
      exact Or.inl (heq ▸ ha)
  · rw [if_neg hany] at h
    rcases List.mem_append.mp h with h | h
    · exact Or.inl h
    · exact Or.inr (List.mem_singleton.mp h)

theorem mem_write_fold (state : List (String × Json)) :
    ∀ (st : Store) (kv : String × Stored),
      kv ∈ state.foldl (fun st kv =>
        if strStartsWith kv.1 "study_data_" then setItem st kv.1 (Stored.json kv.2)
        else st) st →
      kv ∈ st ∨ ∃ v, kv.2 = Stored.json v := by
  induction state with
  | nil => intro st kv h; exact Or.inl h
  | cons e rest ih =>
    intro st kv h
    simp only [List.foldl_cons] at h
    by_cases hm : strStartsWith e.1 "study_data_" = true
    · rw [if_pos hm] at h
      rcases ih (setItem st e.1 (Stored.json e.2)) kv h with h2 | h2
      · rcases mem_setItem _ _ _ _ h2 with h3 | h3
        · exact Or.inl h3
        · exact Or.inr ⟨e.2, by rw [h3]⟩
      · exact Or.inr h2
    · rw [if_neg hm] at h
      exact ih st kv h

theorem mem_saveState (state : List (String × Json)) (store : Store)
    (kv : String × Stored) (h : kv ∈ saveState state store) :
    (strStartsWith kv.1 "study_data_" = false ∧ kv ∈ store) ∨
      ∃ v, kv.2 = Stored.json v := by
  unfold saveState at h
  rcases mem_write_fold state _ kv h with h2 | h2
  · obtain ⟨hmem, hnm⟩ := List.mem_filter.mp h2
    exact Or.inl ⟨by simpa using hnm, hmem⟩
  · exact Or.inr h2

/-- A `getItem` hit is a store entry under that key. -/
theorem getItem_mem (store : Store) (k : String) (v : Stored)
    (h : getItem store k = some v) : (k, v) ∈ store := by
  unfold getItem at h
  rcases hf : store.find? (fun kv => kv.1 == k) with _ | a
  · rw [hf] at h; cases h
  · rw [hf] at h
    have ha : a.2 = v := Option.some.inj h
    have hk : a.1 = k :=
      eq_of_beq (List.find?_some (p := fun kv : String × Stored => kv.1 == k) hf)
    have := List.mem_of_find?_eq_some hf
    rw [← hk, ← ha]
    exact this

/-! Import-level claims. -/

/-- C1 counterexample: importing `{"bad_key_1": {}}` in replace mode on a
store holding one day record does NOT fail with an ImportError — it returns
`true` — and the persisted state is NOT left untouched: the day record is
erased. -/
theorem import_bad_key_replace_not_rejected :
    (importStateFromJSON (some (Json.obj [("bad_key_1", Json.obj [])])) "replace"
        [("study_data_2024_1_1", Stored.json Json.null)]).result = Except.ok true ∧
    (importStateFromJSON (some (Json.obj [("bad_key_1", Json.obj [])])) "replace"
        [("study_data_2024_1_1", Stored.json Json.null)]).store ≠
      [("study_data_2024_1_1", Stored.json Json.null)] := by
  refine ⟨rfl, ?_⟩
  intro h
  have h0 : (importStateFromJSON (some (Json.obj [("bad_key_1", Json.obj [])])) "replace"
      [("study_data_2024_1_1", Stored.json Json.null)]).store = [] := rfl
  rw [h0] at h
  exact List.noConfusion h.symm

/-- C1 as amended: `importStateFromJSON('{"bad_key_1": {}}', "replace")`
performs no validation: it succeeds with `true`, the non-marker entry
`bad_key_1` is silently dropped by `saveState`, and every previously
persisted `study_data_` key is removed, so the prior state is overwritten,
not preserved. -/
theorem import_bad_key_replace_clears (store : Store) :
    importStateFromJSON (some (Json.obj [("bad_key_1", Json.obj [])])) "replace" store =
      ⟨Except.ok true, store.filter (fun kv => !(strStartsWith kv.1 "study_data_"))⟩ :=
  rfl

/-- C9: importing the text `{}` in replace mode succeeds with `true` and
empties the persisted dataset: every `study_data_` key is removed (unrelated
keys survive) and `loadState` of the result is empty. -/
theorem import_empty_replace_clears (store : Store) :
    importStateFromJSON (some (Json.obj [])) "replace" store =
      ⟨Except.ok true, store.filter (fun kv => !(strStartsWith kv.1 "study_data_"))⟩ ∧
    loadState ((importStateFromJSON (some (Json.obj [])) "replace" store).store) = [] :=
  ⟨rfl, loadState_cleared_nil store⟩

/-- C4: exporting the whole state and importing the text back in replace mode
reproduces the original `loadState()` result (on a well-formed store, whose
keys are unique). -/
theorem export_import_replace_roundtrip (store : Store)
    (hnd : (store.map Prod.fst).Nodup) :
    (importStateFromJSON (some (exportStateToJSON store)) "replace" store).result =
      Except.ok true ∧
    loadState ((importStateFromJSON (some (exportStateToJSON store)) "replace" store).store) =
      loadState store :=
  ⟨rfl,
    loadState_saveState (loadState store) store (loadState_keys_marker store)
      (List.Nodup.sublist (loadState_keys_sublist store) hnd)⟩

theorem export_import_replace_roundtrip_witness :
    (importStateFromJSON
        (some (exportStateToJSON [("study_data_2024_1_1", Stored.json Json.null)]))
        "replace" [("study_data_2024_1_1", Stored.json Json.null)]).result =
      Except.ok true ∧
    loadState ((importStateFromJSON
        (some (exportStateToJSON [("study_data_2024_1_1", Stored.json Json.null)]))
        "replace" [("study_data_2024_1_1", Stored.json Json.null)]).store) =
      loadState [("study_data_2024_1_1", Stored.json Json.null)] :=
  export_import_replace_roundtrip [("study_data_2024_1_1", Stored.json Json.null)]
    (by simp)

/-- C7 counterexample: importing `{}` in merge mode on a store holding one
unparseable `study_data_` entry is NOT rejected by any validation (it returns
`true`) and is NOT a no-op on the store: the unparseable entry is removed. -/
theorem import_empty_merge_not_noop :
    (importStateFromJSON (some (Json.obj [])) "merge"
        [("study_data_2024_1_2", Stored.junk "not json")]).result = Except.ok true ∧
    (importStateFromJSON (some (Json.obj [])) "merge"
        [("study_data_2024_1_2", Stored.junk "not json")]).store ≠
      [("study_data_2024_1_2", Stored.junk "not json")] := by
  refine ⟨rfl, ?_⟩
  intro h
  have h0 : (importStateFromJSON (some (Json.obj [])) "merge"
      [("study_data_2024_1_2", Stored.junk "not json")]).store = [] := rfl
  rw [h0] at h
  exact List.noConfusion h.symm

/-- C7 as amended: `importStateFromJSON('{}', "merge")` is not rejected — no
validation exists, so it succeeds with `true` — and while it does rewrite the
store (dropping unparseable `study_data_` entries), the `loadState()` view of
the persisted state is unchanged on a well-formed store. -/
theorem import_empty_merge_preserves_loadState (store : Store)
    (hnd : (store.map Prod.fst).Nodup) :
    (importStateFromJSON (some (Json.obj [])) "merge" store).result = Except.ok true ∧
    loadState ((importStateFromJSON (some (Json.obj [])) "merge" store).store) =
      loadState store := by
  refine ⟨rfl, ?_⟩
  have h1 : ((importStateFromJSON (some (Json.obj [])) "merge" store).store) =
      saveState (mergeEntries (loadState store) []) store := rfl
  have h2 : mergeEntries (loadState store) [] = loadState store := by
    unfold mergeEntries
    simp
  rw [h1, h2]
  exact loadState_saveState (loadState store) store (loadState_keys_marker store)
    (List.Nodup.sublist (loadState_keys_sublist store) hnd)

theorem import_empty_merge_preserves_loadState_witness :
    (importStateFromJSON (some (Json.obj [])) "merge"
        [("study_data_2024_1_2", Stored.junk "not json")]).result = Except.ok true ∧
    loadState ((importStateFromJSON (some (Json.obj [])) "merge"
        [("study_data_2024_1_2", Stored.junk "not json")]).store) =
      loadState [("study_data_2024_1_2", Stored.junk "not json")] :=
  import_empty_merge_preserves_loadState [("study_data_2024_1_2", Stored.junk "not json")]
    (by simp)

/-- C10: a successful merge import permanently drops every `study_data_` key
whose stored text does not parse: such a key is absent from `loadState()` of
the original store, and after the import the store holds either nothing or a
freshly written parseable value under it. -/
theorem import_merge_drops_unparseable (store : Store) (incoming : Json)
    (s2 : Store) (k t : String)
    (hnd : (store.map Prod.fst).Nodup)
    (himp : importStateFromJSON (some incoming) "merge" store = ⟨Except.ok true, s2⟩)
    (hk : strStartsWith k "study_data_" = true)
    (hjunk : getItem store k = some (Stored.junk t)) :
    (∀ v : Json, (k, v) ∉ loadState store) ∧
    (getItem s2 k = none ∨ ∃ v : Json, getItem s2 k = some (Stored.json v)) := by
  have hjmem : (k, Stored.junk t) ∈ store := getItem_mem store k _ hjunk
  constructor
  · intro v hv
    have hvmem := loadState_source store k v hv
    exact Stored.noConfusion (nodup_keys_mem_unique hnd hvmem hjmem)
  · have hs2 : s2 = saveState (mergeEntries (loadState store) (spreadEntries incoming)) store := by
      have h1 : importStateFromJSON (some incoming) "merge" store =
          ⟨Except.ok true,
            saveState (mergeEntries (loadState store) (spreadEntries incoming)) store⟩ := rfl
      rw [h1] at himp
      exact (ImportOutcome.mk.injEq .. ▸ himp).2.symm
    rcases hres : getItem s2 k with _ | val
    · exact Or.inl rfl
    · refine Or.inr ?_
      have hmem : (k, val) ∈ s2 := getItem_mem s2 k val hres
      rw [hs2] at hmem
      rcases mem_saveState _ _ _ hmem with ⟨hnm, _⟩ | ⟨v, hv⟩
      · rw [hk] at hnm
        cases hnm
      · exact ⟨v, by rw [show val = Stored.json v from hv]⟩

theorem import_merge_drops_unparseable_witness :
    getItem ((importStateFromJSON (some (Json.obj [])) "merge"
        [("study_data_2024_1_2", Stored.junk "not json")]).store) "study_data_2024_1_2" = none ∨
    ∃ v : Json, getItem ((importStateFromJSON (some (Json.obj [])) "merge"
        [("study_data_2024_1_2", Stored.junk "not json")]).store) "study_data_2024_1_2" =
      some (Stored.json v) :=
  (import_merge_drops_unparseable [("study_data_2024_1_2", Stored.junk "not json")]
    (Json.obj []) [] "study_data_2024_1_2" "not json" (by simp) rfl rfl rfl).2

/-! Decimal rendering: the facts about `Nat.repr` that key derivation needs. -/

/-- Decimal digit characters of `n`, most significant first — the list
`Nat.toDigits 10 n` computes (proved below). -/
def decChars (n : Nat) : List Char :=
  if _h : n < 10 then [Nat.digitChar n]
  else decChars (n / 10) ++ [Nat.digitChar (n % 10)]
termination_by n
decreasing_by
  exact Nat.div_lt_self (by omega) (by omega)

theorem decChars_small {n : Nat} (h : n < 10) : decChars n = [Nat.digitChar n] := by
  rw [decChars, dif_pos h]

theorem decChars_large {n : Nat} (h : ¬ n < 10) :
    decChars n = decChars (n / 10) ++ [Nat.digitChar (n % 10)] := by
  rw [decChars, dif_neg h]

theorem decChars_ne_nil (n : Nat) : decChars n ≠ [] := by
  rw [decChars]
  by_cases h : n < 10
  · rw [dif_pos h]
    exact List.cons_ne_nil _ _
  · rw [dif_neg h]
    intro heq
    exact List.cons_ne_nil _ _ (List.append_eq_nil.mp heq).2

theorem digitChar_injOn : ∀ a < 10, ∀ b < 10,
    Nat.digitChar a = Nat.digitChar b → a = b := by decide

theorem digitChar_ne_underscore : ∀ a < 10, Nat.digitChar a ≠ '_' := by decide

theorem decChars_no_underscore (n : Nat) : ∀ c ∈ decChars n, c ≠ '_' := by
  induction n using Nat.strong_induction_on with
  | _ n ih =>
    intro c hc
    rw [decChars] at hc
    by_cases h : n < 10
    · rw [dif_pos h] at hc
      rw [List.mem_singleton.mp hc]
      exact digitChar_ne_underscore n h
    · rw [dif_neg h] at hc
      rcases List.mem_append.mp hc with hc | hc
      · exact ih (n / 10) (Nat.div_lt_self (by omega) (by omega)) c hc
      · rw [List.mem_singleton.mp hc]
        exact digitChar_ne_underscore (n % 10) (Nat.mod_lt n (by omega))

theorem toDigitsCore_eq_decChars :
    ∀ (fuel n : Nat) (ds : List Char), n < fuel →
      Nat.toDigitsCore 10 fuel n ds = decChars n ++ ds := by
  intro fuel
  induction fuel with
  | zero => intro n ds h; omega
  | succ f ih =>
    intro n ds h
    simp only [Nat.toDigitsCore]
    by_cases h0 : n / 10 = 0
    · rw [if_pos h0]
      have hn : n < 10 := by omega
      rw [decChars_small hn, Nat.mod_eq_of_lt hn, List.singleton_append]
    · rw [if_neg h0, ih (n / 10) _ (by omega)]
      rw [decChars_large (by omega : ¬ n < 10), List.append_assoc,
        List.singleton_append]

theorem repr_data_eq_decChars (n : Nat) : (Nat.repr n).data = decChars n := by
  unfold Nat.repr Nat.toDigits
  rw [toDigitsCore_eq_decChars (n + 1) n [] (by omega), List.append_nil]
  rfl

theorem decChars_injective : ∀ m n : Nat, decChars m = decChars n → m = n := by
  intro m
  induction m using Nat.strong_induction_on with
  | _ m ih =>
    intro n h
    by_cases hm : m < 10 <;> by_cases hn : n < 10
    · rw [decChars_small hm, decChars_small hn] at h
      exact digitChar_injOn m hm n hn (List.cons.injEq .. ▸ h).1
    · rw [decChars_small hm, decChars_large hn] at h
      have hlen := congrArg List.length h
      rw [List.length_append] at hlen
      simp only [List.length_singleton] at hlen
      have : (decChars (n / 10)).length = 0 := by omega
      exact absurd (List.length_eq_zero.mp this) (decChars_ne_nil _)
    · rw [decChars_large hm, decChars_small hn] at h
      have hlen := congrArg List.length h
      rw [List.length_append] at hlen
      simp only [List.length_singleton] at hlen
      have : (decChars (m / 10)).length = 0 := by omega
      exact absurd (List.length_eq_zero.mp this) (decChars_ne_nil _)
    · rw [decChars_large hm, decChars_large hn] at h
      obtain ⟨hA, hx⟩ := List.append_inj' h rfl
      have h10 : m % 10 = n % 10 :=
        digitChar_injOn (m % 10) (Nat.mod_lt m (by omega)) (n % 10)
          (Nat.mod_lt n (by omega)) (List.cons.injEq .. ▸ hx).1
      have hdiv : m / 10 = n / 10 :=
        ih (m / 10) (Nat.div_lt_self (by omega) (by omega)) (n / 10) hA
      omega

theorem repr_injective : ∀ m n : Nat, Nat.repr m = Nat.repr n → m = n := by
  intro m n h
  apply decChars_injective
  rw [← repr_data_eq_decChars, ← repr_data_eq_decChars, h]

/-- Splitting at an underscore is unambiguous when the pieces on its left are
underscore-free. -/
theorem append_underscore_inj :
    ∀ (a b r s : List Char), (∀ c ∈ a, c ≠ '_') → (∀ c ∈ b, c ≠ '_') →
      a ++ '_' :: r = b ++ '_' :: s → a = b ∧ r = s := by
  intro a
  induction a with
  | nil =>
    intro b r s _ hb h
    cases b with
    | nil =>
      simp only [List.nil_append] at h
      exact ⟨rfl, (List.cons.injEq .. ▸ h).2⟩
    | cons c bt =>
      simp only [List.nil_append, List.cons_append] at h
      exact absurd (List.cons.injEq .. ▸ h).1.symm (hb c (List.mem_cons_self c bt))
  | cons c tl ih =>
    intro b r s ha hb h
    cases b with
    | nil =>
      simp only [List.cons_append, List.nil_append] at h
      exact absurd (List.cons.injEq .. ▸ h).1 (ha c (List.mem_cons_self c tl))
    | cons c2 bt =>
      simp only [List.cons_append] at h
      obtain ⟨hceq, htl⟩ := List.cons.injEq .. ▸ h
      obtain ⟨hab, hrs⟩ := ih bt r s (fun x hx => ha x (List.mem_cons_of_mem c hx))
        (fun x hx => hb x (List.mem_cons_of_mem c2 hx)) htl
      exact ⟨by rw [hceq, hab], hrs⟩

theorem underscore_data : ("_" : String).data = ['_'] := rfl

/-- C6: key derivation is a pure, deterministic function of the date's local
calendar fields, producing the documented
`study_data_<year>_<month>_<day>` shape (unpadded decimals), and distinct
calendar dates produce distinct keys. -/
theorem getStorageKey_deterministic_injective :
    (∀ d : Date, getStorageKey d =
      "study_data_" ++ Nat.repr d.year ++ "_" ++ Nat.repr d.month
        ++ "_" ++ Nat.repr d.day) ∧
    (∀ a b : Date, getStorageKey a = getStorageKey b → a = b) := by
  refine ⟨fun d => rfl, fun a b h => ?_⟩
  have hd := congrArg String.data h
  simp only [getStorageKey, String.data_append, List.append_assoc,
    repr_data_eq_decChars, underscore_data, List.singleton_append] at hd
  have h1 := List.append_cancel_left hd
  obtain ⟨hy, h2⟩ := append_underscore_inj _ _ _ _ (decChars_no_underscore _)
    (decChars_no_underscore _) h1
  obtain ⟨hmo, hd2⟩ := append_underscore_inj _ _ _ _ (decChars_no_underscore _)
    (decChars_no_underscore _) h2
  have e1 : a.year = b.year := decChars_injective _ _ hy
  have e2 : a.month = b.month := decChars_injective _ _ hmo
  have e3 : a.day = b.day := decChars_injective _ _ hd2
  cases a
  cases b
  simp only [Date.mk.injEq]
  exact ⟨e1, e2, e3⟩

theorem getStorageKey_deterministic_injective_witness :
    getStorageKey ⟨2024, 3, 7⟩ =
      "study_data_" ++ Nat.repr 2024 ++ "_" ++ Nat.repr 3 ++ "_" ++ Nat.repr 7 ∧
    (⟨2024, 3, 7⟩ : Date) = ⟨2024, 3, 7⟩ :=
  ⟨getStorageKey_deterministic_injective.1 ⟨2024, 3, 7⟩,
    getStorageKey_deterministic_injective.2 ⟨2024, 3, 7⟩ ⟨2024, 3, 7⟩ rfl⟩

/-- C8: `loadMonthData(year, month)` returns entries only for day indices
between 1 and the day count of that month of that year; the day count
accounts for leap years — 29 days for February 2024, 28 for February 2023. -/
theorem loadMonthData_day_bounds (store : Store) (year month : Nat) :
    (∀ p ∈ loadMonthData store year month,
      1 ≤ p.1 ∧ p.1 ≤ daysInMonth year month) ∧
    daysInMonth 2024 2 = 29 ∧ daysInMonth 2023 2 = 28 := by
  refine ⟨?_, rfl, rfl⟩
  intro p hp
  unfold loadMonthData at hp
  rcases List.mem_filterMap.mp hp with ⟨day, hday, hf⟩
  have hb := List.mem_range'_1.mp hday
  have hpd : p.1 = day := by
    rcases hg : getItem store (getStorageKey ⟨year, month, day⟩) with _ | st
    · rw [hg] at hf
      exact Option.noConfusion hf
    · rw [hg] at hf
      cases st with
      | json v => rw [← Option.some.inj hf]
      | junk t => exact Option.noConfusion hf
  omega

theorem loadMonthData_day_bounds_witness :
    (29, Json.null) ∈
      loadMonthData [("study_data_2024_2_29", Stored.json Json.null)] 2024 2 ∧
    1 ≤ (29, Json.null).1 ∧ (29, Json.null).1 ≤ daysInMonth 2024 2 := by
  have hmem : (29, Json.null) ∈
      loadMonthData [("study_data_2024_2_29", Stored.json Json.null)] 2024 2 := by
    have hcalc : loadMonthData [("study_data_2024_2_29", Stored.json Json.null)] 2024 2 =
        [(29, Json.null)] := rfl
    rw [hcalc]
    exact List.mem_singleton.mpr rfl
  exact ⟨hmem,
    (loadMonthData_day_bounds [("study_data_2024_2_29", Stored.json Json.null)]
      2024 2).1 (29, Json.null) hmem⟩

end Storage
